import Mathlib

/-!
Verification of the rusty-snake simulation core (src/main.rs).

The game stores coordinates as `f64`, but every value that ever reaches a
coordinate field is an integer (the initial configuration, the results of
`increment_coordinate!`/`decrement_coordinate!` on integers, and casts of
`usize` random draws), and the only operations are +1, -1, and the two
mirror-wrap formulas, all exact on integer-valued doubles.  The embedding
therefore uses `Int` for coordinates and canvas bounds.

Panics of the Rust code (indexing an empty vector, `usize` underflow in
`head_index - 1` followed by an out-of-bounds index) are modelled by
returning `none`.
-/

namespace RustySnake

/-- The four movement directions (src/main.rs, `enum Direction`). -/
inductive Direction
  | Up
  | Right
  | Down
  | Left
deriving DecidableEq, Repr

/-- The four item kinds (src/main.rs, `enum ItemType`). -/
inductive ItemType
  | Apple
  | Mushroom
  | Hedgehog
  | Boulder
deriving DecidableEq, Repr

/-- One body cell of the snake (src/main.rs, `struct Segment`). -/
structure Segment where
  x : Int
  y : Int
  direction : Direction
deriving DecidableEq, Repr

/-- An item lying on the canvas (src/main.rs, `struct Item`). -/
structure Item where
  item_type : ItemType
  x : Int
  y : Int
deriving DecidableEq, Repr

/-- The game state (src/main.rs, `struct App`).  `segments` is ordered
tail-first: index 0 is the tail, the last element is the head. -/
structure App where
  segments : List Segment
  items : List Item
  playing : Bool
  canvas_x_length : Int
  canvas_y_length : Int
deriving DecidableEq, Repr

/-- `increment_coordinate!` (src/main.rs lines 68-76): add 1, with the
asymmetric mirror wrap `overflow_after - value - 1` once the value is at or
past the bound. -/
def increment_coordinate (value overflow_after : Int) : Int :=
  if value ≥ overflow_after then overflow_after - value - 1 else value + 1

/-- `decrement_coordinate!` (src/main.rs lines 79-87): subtract 1, with the
wrap `overflow_to + value` once the value is at or below 0. -/
def decrement_coordinate (value overflow_to : Int) : Int :=
  if value ≤ 0 then overflow_to + value else value - 1

/-- `App::new` (src/main.rs lines 100-122): 13 segments at y = 0 with
x = 1..13, all heading `Right`, no items, canvas bounds 10 × 10. -/
def App.new : App :=
  { segments :=
      [⟨1, 0, Direction.Right⟩, ⟨2, 0, Direction.Right⟩, ⟨3, 0, Direction.Right⟩,
       ⟨4, 0, Direction.Right⟩, ⟨5, 0, Direction.Right⟩, ⟨6, 0, Direction.Right⟩,
       ⟨7, 0, Direction.Right⟩, ⟨8, 0, Direction.Right⟩, ⟨9, 0, Direction.Right⟩,
       ⟨10, 0, Direction.Right⟩, ⟨11, 0, Direction.Right⟩, ⟨12, 0, Direction.Right⟩,
       ⟨13, 0, Direction.Right⟩],
    items := [],
    playing := false,
    canvas_x_length := 10,
    canvas_y_length := 10 }

/-- `App::set_heading` (src/main.rs lines 125-130): overwrite the head
segment's direction.  On an empty body `segments.len() - 1` underflows and
the index panics, modelled by `none`. -/
def App.set_heading (app : App) (direction : Direction) : Option App :=
  match app.segments.getLast? with
  | none => none
  | some _ =>
      let head_index := app.segments.length - 1
      some { app with
             segments := app.segments.set head_index
               { (app.segments.getD head_index ⟨0, 0, Direction.Up⟩) with
                 direction := direction } }

/-- Move one segment one wrap-step in its own direction: the
`match self.segments[i].direction` in `App::update` (src/main.rs
lines 190-195). -/
def moveSegment (cxl cyl : Int) (s : Segment) : Segment :=
  match s.direction with
  | Direction.Up => { s with y := increment_coordinate s.y cyl }
  | Direction.Right => { s with x := increment_coordinate s.x cxl }
  | Direction.Down => { s with y := decrement_coordinate s.y cyl }
  | Direction.Left => { s with x := decrement_coordinate s.x cxl }

/-- One wrap-step against direction `d`: the inverse movement match used
both for the new tail of an Apple/Mushroom pickup (src/main.rs
lines 213-218) and to bring the head back after a Boulder deflection
(lines 249-254). -/
def inverseStep (cxl cyl : Int) (d : Direction) (x y : Int) : Int × Int :=
  match d with
  | Direction.Up => (x, decrement_coordinate y cyl)
  | Direction.Right => (decrement_coordinate x cxl, y)
  | Direction.Down => (x, increment_coordinate y cyl)
  | Direction.Left => (increment_coordinate x cxl, y)

/-- The movement loop of `App::update` (src/main.rs lines 189-200): for each
index i from tail to head, move segment i one wrap-step by its own
direction, then, if i is not the head and its direction differs from
segment i+1's, adopt segment i+1's direction.  Iteration i writes only
index i and reads index i+1 before iteration i+1 touches it, so the loop is
this lookahead recursion over the list. -/
def movePass (cxl cyl : Int) : List Segment → List Segment
  | [] => []
  | [s] => [moveSegment cxl cyl s]
  | s :: next :: rest =>
      let moved := moveSegment cxl cyl s
      (if moved.direction ≠ next.direction then
        { moved with direction := next.direction }
      else moved) :: movePass cxl cyl (next :: rest)

/-- The self-collision `while` loop of `App::update` (src/main.rs
lines 273-275): pop the tail segment while more than `target` segments
remain. -/
def truncateTo (target : Nat) : List Segment → List Segment
  | [] => []
  | s :: rest =>
      if (s :: rest).length > target then truncateTo target rest else s :: rest

/-- The new tail segment created by an Apple/Mushroom pickup (src/main.rs
lines 212-220): one wrap-step behind the current tail in the tail's own
direction, inheriting the tail's direction. -/
def newTailSegment (cxl cyl : Int) (t : Segment) : Segment :=
  let p := inverseStep cxl cyl t.direction t.x t.y
  ⟨p.1, p.2, t.direction⟩

/-- The Boulder branch of `App::update` (src/main.rs lines 229-262), acting
on the moved segment list.  `choice` stands for the `choose` call on the
two-element direction array: `false` picks the first element
(`Right` for a vertical heading, `Up` for a horizontal one), `true` the
second (`Left`, resp. `Down`).  When the body has a single segment,
`head_index - 1` underflows on `usize` and the subsequent index panics:
modelled by `none`. -/
def boulderDeflect (cxl cyl : Int) (choice : Bool) (moved : List Segment)
    (head : Segment) : Option (List Segment) :=
  let head_index := moved.length - 1
  if head_index = 0 then none
  else
    let newDir :=
      if head.direction = Direction.Up ∨ head.direction = Direction.Down then
        if choice then Direction.Left else Direction.Right
      else
        if choice then Direction.Down else Direction.Up
    let movedHead := moveSegment cxl cyl { head with direction := newDir }
    match moved[head_index - 1]? with
    | none => none
    | some before =>
        let p := inverseStep cxl cyl before.direction movedHead.x movedHead.y
        some ((moved.set head_index { movedHead with x := p.1, y := p.2 }).set
          (head_index - 1) { before with direction := newDir })

/-- `App::update` (src/main.rs lines 187-279): move and propagate, then
resolve at most one item pickup at the head's new cell (first item in
insertion order), otherwise resolve a self-collision by truncating from the
tail.  Panics (empty body, lone-segment Boulder pickup) are `none`. -/
def App.update (app : App) (choice : Bool) : Option App :=
  let cxl := app.canvas_x_length
  let cyl := app.canvas_y_length
  let moved := movePass cxl cyl app.segments
  match moved.getLast? with
  | none => none
  | some head =>
      match app.items.findIdx? (fun it => it.x == head.x && it.y == head.y) with
      | some i =>
          match app.items[i]? with
          | none => none
          | some it =>
              let remaining := app.items.eraseIdx i
              match it.item_type with
              | ItemType.Apple | ItemType.Mushroom =>
                  match moved with
                  | [] => none
                  | t :: _ =>
                      some { app with
                             segments := newTailSegment cxl cyl t :: moved,
                             items := remaining }
              | ItemType.Hedgehog =>
                  some { app with
                         segments :=
                           if moved.length > 1 then moved.tail else moved,
                         items := remaining }
              | ItemType.Boulder =>
                  (boulderDeflect cxl cyl choice moved head).map fun segs =>
                    { app with
                      segments := segs,
                      items := remaining ++ [⟨ItemType.Boulder, head.x, head.y⟩] }
      | none =>
          let initial_body_length := moved.length - 1
          match (moved.take initial_body_length).findIdx?
              (fun s => s.x == head.x && s.y == head.y) with
          | some i =>
              some { app with
                     segments := truncateTo (initial_body_length - i) moved }
          | none => some { app with segments := moved }

/-- The segment half of the occupancy scan in `App::generate_item`
(src/main.rs lines 142-151): for each segment in order, if it occupies the
candidate cell, draw fresh coordinates and move on to the NEXT segment (the
`continue` resumes the `for` loop, so earlier segments are not rechecked).
The candidate coordinates and the unconsumed draws are returned; `none`
stands for running out of the supplied random draws. -/
def scanSegments : List Segment → Int → Int → List (Int × Int) →
    Option (Int × Int × List (Int × Int))
  | [], x, y, coords => some (x, y, coords)
  | s :: rest, x, y, coords =>
      if s.x = x ∧ s.y = y then
        match coords with
        | [] => none
        | c :: cs => scanSegments rest c.1 c.2 cs
      else scanSegments rest x y coords

/-- The item half of the occupancy scan in `App::generate_item`
(src/main.rs lines 153-162), with the same scan-then-accept policy as
`scanSegments`. -/
def scanItems : List Item → Int → Int → List (Int × Int) →
    Option (Int × Int × List (Int × Int))
  | [], x, y, coords => some (x, y, coords)
  | it :: rest, x, y, coords =>
      if it.x = x ∧ it.y = y then
        match coords with
        | [] => none
        | c :: cs => scanItems rest c.1 c.2 cs
      else scanItems rest x y coords

/-- The outer `loop` of `App::generate_item` (src/main.rs lines 136-183).
Randomness is supplied explicitly: `coords` are the `random_coordinates!`
draws (each in [2, canvas_x_length-1) × [1, canvas_y_length-1) in the real
program), `kinds` the `items.choose` draws (`false` = first element of the
two-candidate vector, `true` = second), and `chain` the `gen_bool(0.2)`
draws deciding whether to spawn a chained destructive item.  One item is
placed per iteration; the inner occupancy `loop` of the source runs its
body exactly once because the trailing `break` is unconditional.  `none`
stands for exhausting a supplied random stream. -/
def generateItemGo : List Bool → Bool → App → List (Int × Int) → List Bool →
    Option (App × List (Int × Int))
  | chain, destructive, app, coords, kinds =>
      match coords with
      | [] => none
      | c0 :: cs =>
          match scanSegments app.segments c0.1 c0.2 cs with
          | none => none
          | some (x1, y1, cs1) =>
              match scanItems app.items x1 y1 cs1 with
              | none => none
              | some (x, y, cs2) =>
                  match kinds with
                  | [] => none
                  | k :: ks =>
                      let pair :=
                        if destructive then (ItemType.Hedgehog, ItemType.Boulder)
                        else (ItemType.Apple, ItemType.Mushroom)
                      let app' :=
                        { app with
                          items := app.items ++
                            [⟨if k then pair.2 else pair.1, x, y⟩] }
                      match chain with
                      | [] => none
                      | b :: bs =>
                          if b then generateItemGo bs true app' cs2 ks
                          else some (app', cs2)

/-- `App::generate_item` (src/main.rs lines 133-184): the destructive flag
starts out false. -/
def App.generate_item (app : App) (coords : List (Int × Int))
    (kinds chain : List Bool) : Option (App × List (Int × Int)) :=
  generateItemGo chain false app coords kinds

/-- Direction propagation exactly as §4.4 step 2 of the spec words it: for
every segment except the head, if its direction differs from the next
segment's (the one closer to the head), adopt the next segment's
direction — stated here as its own phase, applied after all movement. -/
def specPropagate : List Segment → List Segment
  | [] => []
  | [s] => [s]
  | s :: next :: rest =>
      (if s.direction ≠ next.direction then
        { s with direction := next.direction }
      else s) :: specPropagate (next :: rest)

/-- §4.4 steps 1-2 of the spec as two separate phases: first move every
segment one wrap-step by its own (pre-tick) direction, then propagate
directions.  `moveSegment` leaves directions untouched, so the propagation
phase compares exactly the pre-tick directions, as the spec demands. -/
def specMoveThenPropagate (cxl cyl : Int) (segs : List Segment) : List Segment :=
  specPropagate (segs.map (moveSegment cxl cyl))

/-- The first item, in insertion order, lying at the head's post-move cell:
the item `App::update` would pick up this tick. -/
def App.firstHitItem (app : App) : Option Item :=
  match (movePass app.canvas_x_length app.canvas_y_length app.segments).getLast? with
  | none => none
  | some head =>
      match app.items.findIdx? (fun it => it.x == head.x && it.y == head.y) with
      | none => none
      | some i => app.items[i]?

theorem moveSegment_direction (cxl cyl : Int) (s : Segment) :
    (moveSegment cxl cyl s).direction = s.direction := by
  cases s with
  | mk x y d => cases d <;> rfl

theorem movePass_length (cxl cyl : Int) : ∀ segs : List Segment,
    (movePass cxl cyl segs).length = segs.length
  | [] => rfl
  | [_] => rfl
  | s :: next :: rest => by
      simp only [movePass, List.length_cons, movePass_length cxl cyl (next :: rest)]

theorem truncateTo_eq_drop (target : Nat) : ∀ l : List Segment,
    truncateTo target l = l.drop (l.length - target)
  | [] => by simp [truncateTo]
  | s :: rest => by
      rw [truncateTo]
      by_cases h : (s :: rest).length > target
      · rw [if_pos h, truncateTo_eq_drop target rest]
        have hlen : (s :: rest).length - target = (rest.length - target) + 1 := by
          simp only [List.length_cons] at h ⊢
          omega
        rw [hlen, List.drop_succ_cons]
      · rw [if_neg h]
        have hlen : (s :: rest).length - target = 0 := by
          simp only [List.length_cons] at h ⊢
          omega
        rw [hlen, List.drop_zero]

/-- C4: for every bound B > 0 and coordinate v in [0, B), decrementing then
incrementing is the identity, incrementing then decrementing is the
identity except exactly at v = 0 (the one value of the range where the
mirror rule fires during the round trip), and wrap-decrement(0, B) = B. -/
theorem c4_wrap_roundtrip (B v : Int) (hB : 0 < B) (h0 : 0 ≤ v) (hv : v < B) :
    decrement_coordinate (increment_coordinate v B) B = v ∧
    (increment_coordinate (decrement_coordinate v B) B = v ↔ 0 < v) ∧
    decrement_coordinate 0 B = B := by
  unfold increment_coordinate decrement_coordinate
  split_ifs <;> constructor <;> try constructor
  all_goals omega

/-- Witness for C4 at B = 5, v = 3. -/
theorem c4_witness :
    decrement_coordinate (increment_coordinate 3 5) 5 = 3 ∧
    (increment_coordinate (decrement_coordinate 3 5) 5 = 3 ↔ (0 : Int) < 3) ∧
    decrement_coordinate 0 5 = 5 :=
  c4_wrap_roundtrip 5 3 (by decide) (by decide) (by decide)

/-- C1 counterexample: a valid state — non-empty body, positive bounds, all
coordinates within bounds — on which `update` panics: a single-segment body
whose head moves onto a Boulder reaches `segments[head_index - 1]` with
`head_index = 0`, a `usize` underflow.  The state is valid in every sense
the claim lists, yet `update` does not complete (for either random draw of
the deflection direction). -/
theorem c1_counterexample :
    App.update
      { segments := [⟨1, 1, Direction.Right⟩],
        items := [⟨ItemType.Boulder, 2, 1⟩],
        playing := true, canvas_x_length := 10, canvas_y_length := 10 } true = none ∧
    App.update
      { segments := [⟨1, 1, Direction.Right⟩],
        items := [⟨ItemType.Boulder, 2, 1⟩],
        playing := true, canvas_x_length := 10, canvas_y_length := 10 } false = none ∧
    ([⟨1, 1, Direction.Right⟩] : List Segment) ≠ [] ∧
    (0 : Int) < 10 ∧
    (0 ≤ (1 : Int) ∧ (1 : Int) < 10 ∧ 0 ≤ (2 : Int) ∧ (2 : Int) < 10) := by
  decide

/-- C1 amended: `update` completes on every state with a non-empty body,
except when the body has exactly one segment and the first item at the
head's post-move cell is a Boulder (there the source underflows
`head_index - 1`).  Positive bounds and in-bounds coordinates are not even
needed. -/
theorem c1_total_unless_lone_boulder (app : App) (choice : Bool)
    (hne : app.segments ≠ [])
    (hsafe : 2 ≤ app.segments.length ∨
      ∀ it, app.firstHitItem = some it → it.item_type ≠ ItemType.Boulder) :
    (app.update choice).isSome := by
  have hlen := movePass_length app.canvas_x_length app.canvas_y_length app.segments
  have hmne : movePass app.canvas_x_length app.canvas_y_length app.segments ≠ [] := by
    intro h
    rw [h] at hlen
    exact hne (List.length_eq_zero.mp hlen.symm)
  obtain ⟨head, hlast⟩ :
      ∃ h, (movePass app.canvas_x_length app.canvas_y_length app.segments).getLast? = some h := by
    cases h : (movePass app.canvas_x_length app.canvas_y_length app.segments).getLast? with
    | none => exact absurd (List.getLast?_eq_none_iff.mp h) hmne
    | some hd => exact ⟨hd, rfl⟩
  rw [App.update]
  simp only [hlast]
  cases hfind : app.items.findIdx? (fun it => it.x == head.x && it.y == head.y) with
  | none =>
      simp only [hfind]
      cases hcol : ((movePass app.canvas_x_length app.canvas_y_length app.segments).take
          ((movePass app.canvas_x_length app.canvas_y_length app.segments).length - 1)).findIdx?
          (fun s => s.x == head.x && s.y == head.y) with
      | none => simp [hcol]
      | some i => simp [hcol]
  | some i =>
      obtain ⟨hi, -, -⟩ := List.findIdx?_eq_some_iff_getElem.mp hfind
      have hget : app.items[i]? = some app.items[i] := List.getElem?_eq_getElem hi
      simp only [hfind, hget]
      have hfirst : app.firstHitItem = some app.items[i] := by
        rw [App.firstHitItem]
        simp only [hlast, hfind, hget]
      cases hkind : app.items[i].item_type with
      | Apple =>
          cases hm : movePass app.canvas_x_length app.canvas_y_length app.segments with
          | nil => exact absurd hm hmne
          | cons t rest => simp [hm, hkind]
      | Mushroom =>
          cases hm : movePass app.canvas_x_length app.canvas_y_length app.segments with
          | nil => exact absurd hm hmne
          | cons t rest => simp [hm, hkind]
      | Hedgehog => simp [hkind]
      | Boulder =>
          have h2 : 2 ≤ app.segments.length := by
            rcases hsafe with h2 | hno
            · exact h2
            · exact absurd hkind (hno _ hfirst)
          simp only [hkind]
          rw [boulderDeflect]
          have hix : (movePass app.canvas_x_length app.canvas_y_length app.segments).length
              - 1 ≠ 0 := by omega
          rw [if_neg hix]
          have hlt : (movePass app.canvas_x_length app.canvas_y_length app.segments).length
              - 1 - 1 < (movePass app.canvas_x_length app.canvas_y_length app.segments).length := by
            omega
          rw [List.getElem?_eq_getElem hlt]
          simp

/-- Witness for the amended C1 at the initial game state. -/
theorem c1_witness : (App.new.update true).isSome :=
  c1_total_unless_lone_boulder App.new true (by decide) (Or.inl (by decide))

theorem tail_getLast? (l : List Segment) (h : 2 ≤ l.length) :
    l.tail.getLast? = l.getLast? := by
  match l, h with
  | a :: b :: rest, _ => simp [List.getLast?_cons_cons]

theorem boulderDeflect_length (cxl cyl : Int) (choice : Bool)
    (moved : List Segment) (head : Segment) (segs : List Segment)
    (h : boulderDeflect cxl cyl choice moved head = some segs) :
    segs.length = moved.length := by
  rw [boulderDeflect] at h
  by_cases h0 : moved.length - 1 = 0
  · rw [if_pos h0] at h
    cases h
  · rw [if_neg h0] at h
    cases hg : moved[moved.length - 1 - 1]? with
    | none => rw [hg] at h; cases h
    | some before =>
        rw [hg] at h
        cases h
        simp [List.length_set]

/-- C2: when no item lies at the head's post-move cell and the tail-to-head
scan of the moved non-head segments finds its first hit at tail-index k,
`update` drops exactly the k + 1 tail-most segments — leaving N - 1 - k of
the N segments — and returns with the items untouched. -/
theorem c2_self_truncation (app : App) (choice : Bool) (head : Segment) (k : Nat)
    (hlast : (movePass app.canvas_x_length app.canvas_y_length app.segments).getLast?
      = some head)
    (hnoitem : app.items.findIdx? (fun it => it.x == head.x && it.y == head.y) = none)
    (hk : ((movePass app.canvas_x_length app.canvas_y_length app.segments).take
        (app.segments.length - 1)).findIdx?
        (fun s => s.x == head.x && s.y == head.y) = some k) :
    ∃ app', app.update choice = some app' ∧
      app'.segments =
        (movePass app.canvas_x_length app.canvas_y_length app.segments).drop (k + 1) ∧
      app'.segments.length = app.segments.length - 1 - k ∧
      app'.items = app.items := by
  have hlen := movePass_length app.canvas_x_length app.canvas_y_length app.segments
  obtain ⟨hklt, -, -⟩ := List.findIdx?_eq_some_iff_getElem.mp hk
  rw [List.length_take] at hklt
  have hkN : k < app.segments.length - 1 :=
    lt_of_lt_of_le hklt (min_le_left _ _)
  rw [← hlen] at hk hkN
  refine ⟨{ app with
            segments :=
              (movePass app.canvas_x_length app.canvas_y_length app.segments).drop
                (k + 1) }, ?_, rfl, ?_, rfl⟩
  · rw [App.update]
    simp only [hlast, hnoitem, hk]
    rw [truncateTo_eq_drop]
    have harith :
        (movePass app.canvas_x_length app.canvas_y_length app.segments).length -
          ((movePass app.canvas_x_length app.canvas_y_length app.segments).length - 1 - k)
          = k + 1 := by omega
    rw [harith]
  · simp only [List.length_drop]
    omega

/-- Witness for C2: a two-segment body whose head moves onto the moved
tail's cell; the tail-index is k = 0, the result keeps 2 - 1 - 0 = 1
segment. -/
theorem c2_witness :
    ∃ app',
      App.update
        { segments := [⟨0, 0, Direction.Right⟩, ⟨2, 0, Direction.Left⟩],
          items := [], playing := true,
          canvas_x_length := 10, canvas_y_length := 10 } true = some app' ∧
      app'.segments =
        (movePass 10 10
          [⟨0, 0, Direction.Right⟩, ⟨2, 0, Direction.Left⟩]).drop (0 + 1) ∧
      app'.segments.length =
        ([⟨0, 0, Direction.Right⟩, ⟨2, 0, Direction.Left⟩] : List Segment).length - 1 - 0 ∧
      app'.items = [] :=
  c2_self_truncation
    { segments := [⟨0, 0, Direction.Right⟩, ⟨2, 0, Direction.Left⟩],
      items := [], playing := true,
      canvas_x_length := 10, canvas_y_length := 10 } true
    ⟨1, 0, Direction.Left⟩ 0 (by decide) (by decide) (by decide)

/-- C6: when the first item at the head's post-move cell is a Hedgehog,
`update` removes that item; with more than one segment it removes exactly
the tail segment (length down by one, head unchanged), and with a single
segment it removes none. -/
theorem c6_hedgehog_shrink (app : App) (choice : Bool) (head : Segment)
    (i : Nat) (it : Item)
    (hlast : (movePass app.canvas_x_length app.canvas_y_length app.segments).getLast?
      = some head)
    (hfind : app.items.findIdx? (fun x => x.x == head.x && x.y == head.y) = some i)
    (hget : app.items[i]? = some it)
    (hkind : it.item_type = ItemType.Hedgehog) :
    ∃ app', app.update choice = some app' ∧
      app'.items = app.items.eraseIdx i ∧
      (1 < app.segments.length →
        app'.segments = (movePass app.canvas_x_length app.canvas_y_length app.segments).tail ∧
        app'.segments.length = app.segments.length - 1 ∧
        app'.segments.getLast? = some head) ∧
      (app.segments.length = 1 →
        app'.segments = movePass app.canvas_x_length app.canvas_y_length app.segments ∧
        app'.segments.length = 1) := by
  have hlen := movePass_length app.canvas_x_length app.canvas_y_length app.segments
  refine ⟨{ app with
            segments :=
              if (movePass app.canvas_x_length app.canvas_y_length app.segments).length > 1
              then (movePass app.canvas_x_length app.canvas_y_length app.segments).tail
              else movePass app.canvas_x_length app.canvas_y_length app.segments,
            items := app.items.eraseIdx i }, ?_, rfl, ?_, ?_⟩
  · rw [App.update]
    simp only [hlast, hfind, hget, hkind]
  · intro hN
    have hcond :
        (movePass app.canvas_x_length app.canvas_y_length app.segments).length > 1 := by
      omega
    rw [if_pos hcond]
    refine ⟨rfl, ?_, ?_⟩
    · simp only [List.length_tail]
      omega
    · rw [tail_getLast? _ (by omega)]
      exact hlast
  · intro hN
    have hcond :
        ¬(movePass app.canvas_x_length app.canvas_y_length app.segments).length > 1 := by
      omega
    rw [if_neg hcond]
    refine ⟨rfl, ?_⟩
    show (movePass app.canvas_x_length app.canvas_y_length app.segments).length = 1
    omega

/-- Witness for C6: a two-segment body running onto a Hedgehog. -/
theorem c6_witness :
    ∃ app',
      App.update
        { segments := [⟨1, 1, Direction.Right⟩, ⟨2, 1, Direction.Right⟩],
          items := [⟨ItemType.Hedgehog, 3, 1⟩], playing := true,
          canvas_x_length := 10, canvas_y_length := 10 } false = some app' ∧
      app'.items = ([⟨ItemType.Hedgehog, 3, 1⟩] : List Item).eraseIdx 0 ∧
      (1 < ([⟨1, 1, Direction.Right⟩, ⟨2, 1, Direction.Right⟩] : List Segment).length →
        app'.segments =
          (movePass 10 10 [⟨1, 1, Direction.Right⟩, ⟨2, 1, Direction.Right⟩]).tail ∧
        app'.segments.length =
          ([⟨1, 1, Direction.Right⟩, ⟨2, 1, Direction.Right⟩] : List Segment).length - 1 ∧
        app'.segments.getLast? = some ⟨3, 1, Direction.Right⟩) ∧
      (([⟨1, 1, Direction.Right⟩, ⟨2, 1, Direction.Right⟩] : List Segment).length = 1 →
        app'.segments = movePass 10 10 [⟨1, 1, Direction.Right⟩, ⟨2, 1, Direction.Right⟩] ∧
        app'.segments.length = 1) :=
  c6_hedgehog_shrink
    { segments := [⟨1, 1, Direction.Right⟩, ⟨2, 1, Direction.Right⟩],
      items := [⟨ItemType.Hedgehog, 3, 1⟩], playing := true,
      canvas_x_length := 10, canvas_y_length := 10 } false
    ⟨3, 1, Direction.Right⟩ 0 ⟨ItemType.Hedgehog, 3, 1⟩
    (by decide) (by decide) (by decide) (by decide)

/-- C8: `update` preserves non-emptiness of the body — on every completing
call from a non-empty state the resulting segment list is non-empty: the
Hedgehog branch keeps a lone segment, self-collision truncation at
tail-index k leaves at least one segment, and no other branch shrinks the
body. -/
theorem c8_update_preserves_nonempty (app : App) (choice : Bool) (app' : App)
    (hne : app.segments ≠ []) (h : app.update choice = some app') :
    app'.segments ≠ [] := by
  have hlen := movePass_length app.canvas_x_length app.canvas_y_length app.segments
  have hmne : movePass app.canvas_x_length app.canvas_y_length app.segments ≠ [] := by
    intro hx
    rw [hx] at hlen
    exact hne (List.length_eq_zero.mp hlen.symm)
  have hmpos : 0 < (movePass app.canvas_x_length app.canvas_y_length app.segments).length :=
    List.length_pos.mpr hmne
  rw [App.update] at h
  cases hlast : (movePass app.canvas_x_length app.canvas_y_length app.segments).getLast? with
  | none => rw [hlast] at h; cases h
  | some head =>
  simp only [hlast] at h
  cases hfind : app.items.findIdx? (fun it => it.x == head.x && it.y == head.y) with
  | none =>
      simp only [hfind] at h
      cases hcol : ((movePass app.canvas_x_length app.canvas_y_length app.segments).take
          ((movePass app.canvas_x_length app.canvas_y_length app.segments).length - 1)).findIdx?
          (fun s => s.x == head.x && s.y == head.y) with
      | none =>
          simp only [hcol] at h
          cases h
          exact hmne
      | some i =>
          simp only [hcol] at h
          cases h
          obtain ⟨hilt, -, -⟩ := List.findIdx?_eq_some_iff_getElem.mp hcol
          rw [List.length_take] at hilt
          have hiN : i <
              (movePass app.canvas_x_length app.canvas_y_length app.segments).length - 1 :=
            lt_of_lt_of_le hilt (min_le_left _ _)
          apply List.ne_nil_of_length_pos
          show 0 < (truncateTo
            ((movePass app.canvas_x_length app.canvas_y_length app.segments).length - 1 - i)
            (movePass app.canvas_x_length app.canvas_y_length app.segments)).length
          rw [truncateTo_eq_drop, List.length_drop]
          omega
  | some i =>
      simp only [hfind] at h
      cases hget : app.items[i]? with
      | none => rw [hget] at h; cases h
      | some it =>
      simp only [hget] at h
      cases hkind : it.item_type with
      | Apple =>
          simp only [hkind] at h
          cases hm : movePass app.canvas_x_length app.canvas_y_length app.segments with
          | nil => exact absurd hm hmne
          | cons t rest =>
              simp only [hm] at h
              cases h
              simp
      | Mushroom =>
          simp only [hkind] at h
          cases hm : movePass app.canvas_x_length app.canvas_y_length app.segments with
          | nil => exact absurd hm hmne
          | cons t rest =>
              simp only [hm] at h
              cases h
              simp
      | Hedgehog =>
          simp only [hkind] at h
          cases h
          show (if (movePass app.canvas_x_length app.canvas_y_length app.segments).length > 1
            then (movePass app.canvas_x_length app.canvas_y_length app.segments).tail
            else movePass app.canvas_x_length app.canvas_y_length app.segments) ≠ []
          by_cases hc :
              (movePass app.canvas_x_length app.canvas_y_length app.segments).length > 1
          · rw [if_pos hc]
            apply List.ne_nil_of_length_pos
            rw [List.length_tail]
            omega
          · rw [if_neg hc]
            exact hmne
      | Boulder =>
          simp only [hkind] at h
          rw [Option.map_eq_some'] at h
          obtain ⟨segs, hbd, rfl⟩ := h
          have := boulderDeflect_length _ _ _ _ _ _ hbd
          apply List.ne_nil_of_length_pos
          show 0 < segs.length
          omega

/-- Witness for C8 at the initial game state. -/
theorem c8_witness :
    ({ App.new with
       segments := movePass App.new.canvas_x_length App.new.canvas_y_length
         App.new.segments } : App).segments ≠ [] :=
  c8_update_preserves_nonempty App.new true
    { App.new with
      segments := movePass App.new.canvas_x_length App.new.canvas_y_length
        App.new.segments }
    (by decide) (by decide)

/-- C5: an Apple or Mushroom pickup removes the item and prepends exactly
one new tail segment, one wrap-step behind the moved tail against the
tail's own direction and inheriting that direction; and concretely, the
default 13-segment rightward body (on a canvas wide enough to hold it)
whose head lands on an Apple grows to 14 segments, the new tail keeping
the old tail's direction and every direction still `Right`. -/
theorem c5_growth :
    (∀ (app : App) (choice : Bool) (head : Segment) (i : Nat) (it : Item)
      (t : Segment) (rest : List Segment),
      (movePass app.canvas_x_length app.canvas_y_length app.segments).getLast? = some head →
      app.items.findIdx? (fun x => x.x == head.x && x.y == head.y) = some i →
      app.items[i]? = some it →
      (it.item_type = ItemType.Apple ∨ it.item_type = ItemType.Mushroom) →
      movePass app.canvas_x_length app.canvas_y_length app.segments = t :: rest →
      app.update choice = some
        { app with
          segments := newTailSegment app.canvas_x_length app.canvas_y_length t ::
            movePass app.canvas_x_length app.canvas_y_length app.segments,
          items := app.items.eraseIdx i } ∧
      (newTailSegment app.canvas_x_length app.canvas_y_length t).direction = t.direction ∧
      ((newTailSegment app.canvas_x_length app.canvas_y_length t).x,
        (newTailSegment app.canvas_x_length app.canvas_y_length t).y) =
        inverseStep app.canvas_x_length app.canvas_y_length t.direction t.x t.y) ∧
    (({ App.new with
        canvas_x_length := 30,
        items := [⟨ItemType.Apple, 14, 0⟩] } : App).update true = some
      { segments :=
          [⟨1, 0, Direction.Right⟩, ⟨2, 0, Direction.Right⟩, ⟨3, 0, Direction.Right⟩,
           ⟨4, 0, Direction.Right⟩, ⟨5, 0, Direction.Right⟩, ⟨6, 0, Direction.Right⟩,
           ⟨7, 0, Direction.Right⟩, ⟨8, 0, Direction.Right⟩, ⟨9, 0, Direction.Right⟩,
           ⟨10, 0, Direction.Right⟩, ⟨11, 0, Direction.Right⟩, ⟨12, 0, Direction.Right⟩,
           ⟨13, 0, Direction.Right⟩, ⟨14, 0, Direction.Right⟩],
        items := [],
        playing := false,
        canvas_x_length := 30,
        canvas_y_length := 10 } ∧
      ([⟨1, 0, Direction.Right⟩, ⟨2, 0, Direction.Right⟩, ⟨3, 0, Direction.Right⟩,
        ⟨4, 0, Direction.Right⟩, ⟨5, 0, Direction.Right⟩, ⟨6, 0, Direction.Right⟩,
        ⟨7, 0, Direction.Right⟩, ⟨8, 0, Direction.Right⟩, ⟨9, 0, Direction.Right⟩,
        ⟨10, 0, Direction.Right⟩, ⟨11, 0, Direction.Right⟩, ⟨12, 0, Direction.Right⟩,
        ⟨13, 0, Direction.Right⟩, ⟨14, 0, Direction.Right⟩] : List Segment).length = 14) := by
  constructor
  · intro app choice head i it t rest hlast hfind hget hkind hm
    refine ⟨?_, rfl, rfl⟩
    rw [App.update]
    rw [hm] at hlast
    rcases hkind with hk | hk <;> simp only [hm, hlast, hfind, hget, hk]
  · exact ⟨by decide, by decide⟩

/-- Witness for the universally quantified half of C5, at the same concrete
growth scenario. -/
theorem c5_witness :
    ({ App.new with
       canvas_x_length := 30,
       items := [⟨ItemType.Apple, 14, 0⟩] } : App).update true = some
      { ({ App.new with
           canvas_x_length := 30,
           items := [⟨ItemType.Apple, 14, 0⟩] } : App) with
        segments := newTailSegment 30 10 ⟨2, 0, Direction.Right⟩ ::
          movePass 30 10 App.new.segments,
        items := ([⟨ItemType.Apple, 14, 0⟩] : List Item).eraseIdx 0 } ∧
    (newTailSegment 30 10 ⟨2, 0, Direction.Right⟩).direction = Direction.Right ∧
    ((newTailSegment 30 10 ⟨2, 0, Direction.Right⟩).x,
      (newTailSegment 30 10 ⟨2, 0, Direction.Right⟩).y) =
      inverseStep 30 10 Direction.Right 2 0 :=
  c5_growth.1
    { App.new with canvas_x_length := 30, items := [⟨ItemType.Apple, 14, 0⟩] }
    true ⟨14, 0, Direction.Right⟩ 0 ⟨ItemType.Apple, 14, 0⟩
    ⟨2, 0, Direction.Right⟩
    [⟨3, 0, Direction.Right⟩, ⟨4, 0, Direction.Right⟩, ⟨5, 0, Direction.Right⟩,
     ⟨6, 0, Direction.Right⟩, ⟨7, 0, Direction.Right⟩, ⟨8, 0, Direction.Right⟩,
     ⟨9, 0, Direction.Right⟩, ⟨10, 0, Direction.Right⟩, ⟨11, 0, Direction.Right⟩,
     ⟨12, 0, Direction.Right⟩, ⟨13, 0, Direction.Right⟩, ⟨14, 0, Direction.Right⟩]
    (by decide) (by decide) (by decide) (Or.inl rfl) (by decide)

/-- C3: a Boulder pickup on a body of length at least 2 keeps the total
item count, pushes a Boulder back at the head's pre-deflection (post-move)
cell, turns the head perpendicular (Left/Right for a vertical heading,
Up/Down for a horizontal one, for either random draw), places the head one
wrap-step in the new direction followed by one wrap-step back against the
segment-before-head's direction, and makes the segment before the head
adopt the new direction. -/
theorem c3_boulder_deflection (app : App) (choice : Bool) (head : Segment)
    (i : Nat) (it : Item)
    (h2 : 2 ≤ app.segments.length)
    (hlast : (movePass app.canvas_x_length app.canvas_y_length app.segments).getLast?
      = some head)
    (hfind : app.items.findIdx? (fun x => x.x == head.x && x.y == head.y) = some i)
    (hget : app.items[i]? = some it)
    (hkind : it.item_type = ItemType.Boulder) :
    ∃ app' newDir,
      app.update choice = some app' ∧
      app'.items.length = app.items.length ∧
      app'.items.getLast? = some ⟨ItemType.Boulder, head.x, head.y⟩ ∧
      ((head.direction = Direction.Up ∨ head.direction = Direction.Down) →
        (newDir = Direction.Left ∨ newDir = Direction.Right)) ∧
      ((head.direction = Direction.Left ∨ head.direction = Direction.Right) →
        (newDir = Direction.Up ∨ newDir = Direction.Down)) ∧
      app'.segments.length = app.segments.length ∧
      (app'.segments.getLast?).map (fun s => s.direction) = some newDir ∧
      (app'.segments.getLast?).map (fun s => (s.x, s.y)) =
        some (inverseStep app.canvas_x_length app.canvas_y_length
          ((movePass app.canvas_x_length app.canvas_y_length app.segments).getD
            (app.segments.length - 2) ⟨0, 0, Direction.Up⟩).direction
          (moveSegment app.canvas_x_length app.canvas_y_length
            { head with direction := newDir }).x
          (moveSegment app.canvas_x_length app.canvas_y_length
            { head with direction := newDir }).y) ∧
      (app'.segments.getD (app.segments.length - 2) ⟨0, 0, Direction.Up⟩).direction
        = newDir := by
  have hlen := movePass_length app.canvas_x_length app.canvas_y_length app.segments
  set M := movePass app.canvas_x_length app.canvas_y_length app.segments with hM
  have hN2 : 2 ≤ M.length := by omega
  have hne0 : ¬(M.length - 1 = 0) := by omega
  have hidx : M.length - 1 - 1 < M.length := by omega
  have hi : i < app.items.length := by
    obtain ⟨hilt, -, -⟩ := List.findIdx?_eq_some_iff_getElem.mp hfind
    exact hilt
  have hbefore : M[M.length - 1 - 1]? = some M[M.length - 1 - 1] :=
    List.getElem?_eq_getElem hidx
  have hsub2 : app.segments.length - 2 = M.length - 1 - 1 := by omega
  set nd := (if head.direction = Direction.Up ∨ head.direction = Direction.Down then
      if choice then Direction.Left else Direction.Right
    else if choice then Direction.Down else Direction.Up) with hnd
  set mh := moveSegment app.canvas_x_length app.canvas_y_length
    { head with direction := nd } with hmh
  set p := inverseStep app.canvas_x_length app.canvas_y_length
    M[M.length - 1 - 1].direction mh.x mh.y with hp
  have hupd : app.update choice = some
      { app with
        segments := (M.set (M.length - 1) { mh with x := p.1, y := p.2 }).set
          (M.length - 1 - 1) { M[M.length - 1 - 1] with direction := nd },
        items := app.items.eraseIdx i ++ [⟨ItemType.Boulder, head.x, head.y⟩] } := by
    rw [App.update]
    simp only [← hM, hlast, hfind, hget, hkind]
    rw [boulderDeflect, if_neg hne0]
    simp only [hbefore, ← hnd, ← hmh, ← hp]
    rfl
  refine ⟨_, nd, hupd, ?_, ?_, ?_, ?_, ?_, ?_, ?_, ?_⟩
  · simp only [List.length_append, List.length_eraseIdx, if_pos hi, List.length_cons,
      List.length_nil]
    omega
  · exact List.getLast?_concat _
  · intro hcase
    rw [hnd, if_pos hcase]
    cases choice
    · exact Or.inr rfl
    · exact Or.inl rfl
  · intro hcase
    have hnot : ¬(head.direction = Direction.Up ∨ head.direction = Direction.Down) := by
      rcases hcase with h | h <;> rw [h] <;> decide
    rw [hnd, if_neg hnot]
    cases choice
    · exact Or.inl rfl
    · exact Or.inr rfl
  · show ((M.set (M.length - 1) { mh with x := p.1, y := p.2 }).set
      (M.length - 1 - 1) { M[M.length - 1 - 1] with direction := nd }).length
      = app.segments.length
    simp only [List.length_set]
    omega
  · show (((M.set (M.length - 1) { mh with x := p.1, y := p.2 }).set
      (M.length - 1 - 1) { M[M.length - 1 - 1] with direction := nd }).getLast?).map
      (fun s => s.direction) = some nd
    rw [List.getLast?_eq_getElem?]
    simp only [List.length_set]
    rw [List.getElem?_set_ne (by omega : M.length - 1 - 1 ≠ M.length - 1)]
    rw [List.getElem?_set_self (by omega : M.length - 1 < M.length)]
    simp [hmh, moveSegment_direction]
  · show (((M.set (M.length - 1) { mh with x := p.1, y := p.2 }).set
      (M.length - 1 - 1) { M[M.length - 1 - 1] with direction := nd }).getLast?).map
      (fun s => (s.x, s.y)) =
      some (inverseStep app.canvas_x_length app.canvas_y_length
        (M.getD (app.segments.length - 2) ⟨0, 0, Direction.Up⟩).direction mh.x mh.y)
    rw [List.getLast?_eq_getElem?]
    simp only [List.length_set]
    rw [List.getElem?_set_ne (by omega : M.length - 1 - 1 ≠ M.length - 1)]
    rw [List.getElem?_set_self (by omega : M.length - 1 < M.length)]
    simp only [Option.map_some']
    rw [hsub2, List.getD_eq_getElem?_getD, List.getElem?_eq_getElem hidx]
    simp
  · show (((M.set (M.length - 1) { mh with x := p.1, y := p.2 }).set
      (M.length - 1 - 1) { M[M.length - 1 - 1] with direction := nd }).getD
      (app.segments.length - 2) ⟨0, 0, Direction.Up⟩).direction = nd
    rw [hsub2, List.getD_eq_getElem?_getD]
    rw [List.getElem?_set_self
      (by simp only [List.length_set]; omega :
        M.length - 1 - 1 < (M.set (M.length - 1)
          { mh with x := p.1, y := p.2 }).length)]
    simp

/-- Witness for C3: a rightward two-segment body whose head lands on a
Boulder. -/
theorem c3_witness :
    ∃ app' newDir,
      App.update
        { segments := [⟨1, 1, Direction.Right⟩, ⟨2, 1, Direction.Right⟩],
          items := [⟨ItemType.Boulder, 3, 1⟩], playing := true,
          canvas_x_length := 10, canvas_y_length := 10 } true = some app' ∧
      app'.items.length = ([⟨ItemType.Boulder, 3, 1⟩] : List Item).length ∧
      app'.items.getLast? = some ⟨ItemType.Boulder, (3 : Int), (1 : Int)⟩ ∧
      ((Direction.Right = Direction.Up ∨ Direction.Right = Direction.Down) →
        (newDir = Direction.Left ∨ newDir = Direction.Right)) ∧
      ((Direction.Right = Direction.Left ∨ Direction.Right = Direction.Right) →
        (newDir = Direction.Up ∨ newDir = Direction.Down)) ∧
      app'.segments.length =
        ([⟨1, 1, Direction.Right⟩, ⟨2, 1, Direction.Right⟩] : List Segment).length ∧
      (app'.segments.getLast?).map (fun s => s.direction) = some newDir ∧
      (app'.segments.getLast?).map (fun s => (s.x, s.y)) =
        some (inverseStep 10 10
          ((movePass 10 10 [⟨1, 1, Direction.Right⟩, ⟨2, 1, Direction.Right⟩]).getD
            (([⟨1, 1, Direction.Right⟩, ⟨2, 1, Direction.Right⟩] : List Segment).length - 2)
            ⟨0, 0, Direction.Up⟩).direction
          (moveSegment 10 10
            { (⟨3, 1, Direction.Right⟩ : Segment) with direction := newDir }).x
          (moveSegment 10 10
            { (⟨3, 1, Direction.Right⟩ : Segment) with direction := newDir }).y) ∧
      (app'.segments.getD
        (([⟨1, 1, Direction.Right⟩, ⟨2, 1, Direction.Right⟩] : List Segment).length - 2)
        ⟨0, 0, Direction.Up⟩).direction = newDir :=
  c3_boulder_deflection
    { segments := [⟨1, 1, Direction.Right⟩, ⟨2, 1, Direction.Right⟩],
      items := [⟨ItemType.Boulder, 3, 1⟩], playing := true,
      canvas_x_length := 10, canvas_y_length := 10 } true
    ⟨3, 1, Direction.Right⟩ 0 ⟨ItemType.Boulder, 3, 1⟩
    (by decide) (by decide) (by decide) (by decide) (by decide)

theorem movePass_eq_spec (cxl cyl : Int) : ∀ segs : List Segment,
    movePass cxl cyl segs = specMoveThenPropagate cxl cyl segs
  | [] => rfl
  | [_] => rfl
  | s :: next :: rest => by
      have ih := movePass_eq_spec cxl cyl (next :: rest)
      simp only [specMoveThenPropagate, List.map_cons] at ih
      simp only [movePass, specMoveThenPropagate, List.map_cons, specPropagate,
        moveSegment_direction]
      rw [ih]

theorem movePass_direction (cxl cyl : Int) : ∀ (segs : List Segment) (i : Nat),
    i + 1 < segs.length →
    ((movePass cxl cyl segs).getD i ⟨0, 0, Direction.Up⟩).direction =
      (segs.getD (i + 1) ⟨0, 0, Direction.Up⟩).direction
  | [], i, h => by simp at h
  | [_], i, h => by simp at h
  | s :: next :: rest, 0, _ => by
      simp only [movePass, List.getD_cons_zero, List.getD_cons_succ]
      by_cases hc : (moveSegment cxl cyl s).direction ≠ next.direction
      · rw [if_pos hc]
      · rw [if_neg hc]
        exact not_ne_iff.mp hc
  | s :: next :: rest, i + 1, h => by
      simp only [movePass, List.getD_cons_succ]
      exact movePass_direction cxl cyl (next :: rest) i
        (by simp only [List.length_cons] at h ⊢; omega)

/-- C7: the interleaved move-then-adopt pass of `update` equals the spec's
two-phase order — move every segment by its own pre-tick direction, then
let every non-head segment whose pre-tick direction differs from its
successor's adopt the successor's pre-tick direction — and consequently
segment i's post-phase direction equals segment i+1's pre-tick direction
whenever the two differed. -/
theorem c7_move_phase_refinement :
    (∀ (cxl cyl : Int) (segs : List Segment),
      movePass cxl cyl segs = specMoveThenPropagate cxl cyl segs) ∧
    (∀ (cxl cyl : Int) (segs : List Segment) (i : Nat),
      i + 1 < segs.length →
      (segs.getD i ⟨0, 0, Direction.Up⟩).direction ≠
        (segs.getD (i + 1) ⟨0, 0, Direction.Up⟩).direction →
      ((movePass cxl cyl segs).getD i ⟨0, 0, Direction.Up⟩).direction =
        (segs.getD (i + 1) ⟨0, 0, Direction.Up⟩).direction) := by
  refine ⟨movePass_eq_spec, ?_⟩
  intro cxl cyl segs i hi _
  exact movePass_direction cxl cyl segs i hi

/-- Witness for C7 on a two-segment body with differing directions. -/
theorem c7_witness :
    movePass 7 9 [⟨1, 1, Direction.Up⟩, ⟨2, 2, Direction.Right⟩] =
      specMoveThenPropagate 7 9 [⟨1, 1, Direction.Up⟩, ⟨2, 2, Direction.Right⟩] ∧
    ((movePass 7 9 [⟨1, 1, Direction.Up⟩, ⟨2, 2, Direction.Right⟩]).getD 0
      ⟨0, 0, Direction.Up⟩).direction =
      (([⟨1, 1, Direction.Up⟩, ⟨2, 2, Direction.Right⟩] : List Segment).getD 1
        ⟨0, 0, Direction.Up⟩).direction :=
  ⟨c7_move_phase_refinement.1 7 9 _,
   c7_move_phase_refinement.2 7 9 _ 0 (by decide) (by decide)⟩

/-- C10: from `App.new` (13 rightward segments at y = 0, x = 1..13, no
items, the default 10 × 10 canvas it installs), three `update` calls — for
any random draws, which are never consulted without a Boulder — produce the
body with every segment wrap-stepped right three times (y and directions
unchanged, length still 13), and the body then occupies exactly 3 cells it
did not occupy initially. -/
theorem c10_three_ticks :
    ∀ c1 c2 c3 : Bool,
      ((App.new.update c1).bind fun a1 =>
        (a1.update c2).bind fun a2 => a2.update c3) =
        some { App.new with
               segments := App.new.segments.map (fun s =>
                 { s with
                   x := increment_coordinate (increment_coordinate
                     (increment_coordinate s.x 10) 10) 10 }) } ∧
      (App.new.segments.map (fun s =>
        { s with
          x := increment_coordinate (increment_coordinate
            (increment_coordinate s.x 10) 10) 10 })).length = 13 ∧
      (App.new.segments.map (fun s =>
        { s with
          x := increment_coordinate (increment_coordinate
            (increment_coordinate s.x 10) 10) 10 })).all
        (fun s => s.direction == Direction.Right) = true ∧
      (((App.new.segments.map (fun s =>
          { s with
            x := increment_coordinate (increment_coordinate
              (increment_coordinate s.x 10) 10) 10 })).map
          (fun s => (s.x, s.y))).filter
        (fun c => !((App.new.segments.map (fun s => (s.x, s.y))).contains c))).dedup.length
        = 3 := by
  decide

/-- Witness instance of C10 at one concrete triple of random draws. -/
theorem c10_witness :
    ((App.new.update true).bind fun a1 =>
      (a1.update false).bind fun a2 => a2.update true) =
      some { App.new with
             segments := App.new.segments.map (fun s =>
               { s with
                 x := increment_coordinate (increment_coordinate
                   (increment_coordinate s.x 10) 10) 10 }) } :=
  (c10_three_ticks true false true).1

theorem scanSegments_length_le : ∀ (segs : List Segment) (x y : Int)
    (coords : List (Int × Int)) (x' y' : Int) (coords' : List (Int × Int)),
    scanSegments segs x y coords = some (x', y', coords') →
    coords'.length ≤ coords.length
  | [], x, y, coords, x', y', coords' => by
      intro h
      rw [scanSegments.eq_def] at h
      simp only [Option.some.injEq, Prod.mk.injEq] at h
      obtain ⟨-, -, rfl⟩ := h
      exact le_refl _
  | s :: rest, x, y, coords, x', y', coords' => by
      intro h
      rw [scanSegments.eq_def] at h
      simp only [] at h
      by_cases hc : s.x = x ∧ s.y = y
      · rw [if_pos hc] at h
        cases coords with
        | nil => cases h
        | cons c cs =>
            have hle := scanSegments_length_le rest c.1 c.2 cs x' y' coords' h
            simp only [List.length_cons]
            omega
      · rw [if_neg hc] at h
        exact scanSegments_length_le rest x y coords x' y' coords' h

theorem scanSegments_no_consume : ∀ (segs : List Segment) (x y : Int)
    (coords : List (Int × Int)) (x' y' : Int) (coords' : List (Int × Int)),
    scanSegments segs x y coords = some (x', y', coords') →
    coords'.length = coords.length →
    x' = x ∧ y' = y ∧ ∀ s ∈ segs, ¬(s.x = x ∧ s.y = y)
  | [], x, y, coords, x', y', coords' => by
      intro h _
      rw [scanSegments.eq_def] at h
      simp only [Option.some.injEq, Prod.mk.injEq] at h
      obtain ⟨rfl, rfl, -⟩ := h
      exact ⟨rfl, rfl, by simp⟩
  | s :: rest, x, y, coords, x', y', coords' => by
      intro h hlen
      rw [scanSegments.eq_def] at h
      simp only [] at h
      by_cases hc : s.x = x ∧ s.y = y
      · rw [if_pos hc] at h
        cases coords with
        | nil => cases h
        | cons c cs =>
            have hle := scanSegments_length_le rest c.1 c.2 cs x' y' coords' h
            simp only [List.length_cons] at hlen
            omega
      · rw [if_neg hc] at h
        obtain ⟨hx, hy, hrest⟩ :=
          scanSegments_no_consume rest x y coords x' y' coords' h hlen
        refine ⟨hx, hy, ?_⟩
        intro t ht
        rcases List.mem_cons.mp ht with rfl | ht'
        · exact hc
        · exact hrest t ht'

theorem scanItems_length_le : ∀ (items : List Item) (x y : Int)
    (coords : List (Int × Int)) (x' y' : Int) (coords' : List (Int × Int)),
    scanItems items x y coords = some (x', y', coords') →
    coords'.length ≤ coords.length
  | [], x, y, coords, x', y', coords' => by
      intro h
      rw [scanItems.eq_def] at h
      simp only [Option.some.injEq, Prod.mk.injEq] at h
      obtain ⟨-, -, rfl⟩ := h
      exact le_refl _
  | it :: rest, x, y, coords, x', y', coords' => by
      intro h
      rw [scanItems.eq_def] at h
      simp only [] at h
      by_cases hc : it.x = x ∧ it.y = y
      · rw [if_pos hc] at h
        cases coords with
        | nil => cases h
        | cons c cs =>
            have hle := scanItems_length_le rest c.1 c.2 cs x' y' coords' h
            simp only [List.length_cons]
            omega
      · rw [if_neg hc] at h
        exact scanItems_length_le rest x y coords x' y' coords' h

theorem scanItems_no_consume : ∀ (items : List Item) (x y : Int)
    (coords : List (Int × Int)) (x' y' : Int) (coords' : List (Int × Int)),
    scanItems items x y coords = some (x', y', coords') →
    coords'.length = coords.length →
    x' = x ∧ y' = y ∧ ∀ it ∈ items, ¬(it.x = x ∧ it.y = y)
  | [], x, y, coords, x', y', coords' => by
      intro h _
      rw [scanItems.eq_def] at h
      simp only [Option.some.injEq, Prod.mk.injEq] at h
      obtain ⟨rfl, rfl, -⟩ := h
      exact ⟨rfl, rfl, by simp⟩
  | it :: rest, x, y, coords, x', y', coords' => by
      intro h hlen
      rw [scanItems.eq_def] at h
      simp only [] at h
      by_cases hc : it.x = x ∧ it.y = y
      · rw [if_pos hc] at h
        cases coords with
        | nil => cases h
        | cons c cs =>
            have hle := scanItems_length_le rest c.1 c.2 cs x' y' coords' h
            simp only [List.length_cons] at hlen
            omega
      · rw [if_neg hc] at h
        obtain ⟨hx, hy, hrest⟩ := scanItems_no_consume rest x y coords x' y' coords' h hlen
        refine ⟨hx, hy, ?_⟩
        intro t ht
        rcases List.mem_cons.mp ht with rfl | ht'
        · exact hc
        · exact hrest t ht'

theorem generateItemGo_consumed : ∀ (chain : List Bool) (d : Bool) (app : App)
    (coords : List (Int × Int)) (kinds : List Bool) (app' : App)
    (leftover : List (Int × Int)),
    generateItemGo chain d app coords kinds = some (app', leftover) →
    leftover.length + app'.items.length ≤ coords.length + app.items.length
  | chain, d, app, coords, kinds, app', leftover => by
      intro h
      rw [generateItemGo.eq_def] at h
      cases coords with
      | nil => cases h
      | cons c0 cs =>
      simp only [] at h
      cases hseg : scanSegments app.segments c0.1 c0.2 cs with
      | none => rw [hseg] at h; cases h
      | some r1 =>
      obtain ⟨x1, y1, cs1⟩ := r1
      rw [hseg] at h
      simp only [] at h
      cases hitm : scanItems app.items x1 y1 cs1 with
      | none => rw [hitm] at h; cases h
      | some r2 =>
      obtain ⟨x, y, cs2⟩ := r2
      rw [hitm] at h
      simp only [] at h
      cases kinds with
      | nil => cases h
      | cons k ks =>
      cases chain with
      | nil => cases h
      | cons b bs =>
      have hle1 := scanSegments_length_le app.segments c0.1 c0.2 cs x1 y1 cs1 hseg
      have hle2 := scanItems_length_le app.items x1 y1 cs1 x y cs2 hitm
      simp only at h
      cases b with
      | false =>
          simp only [if_neg (by simp : ¬(false = true)), Option.some.injEq,
            Prod.mk.injEq] at h
          obtain ⟨rfl, rfl⟩ := h
          simp only [List.length_append, List.length_cons, List.length_nil]
          omega
      | true =>
          rw [if_pos rfl] at h
          have ih := generateItemGo_consumed bs true _ cs2 ks app' leftover h
          simp only [List.length_append, List.length_cons, List.length_nil] at ih ⊢
          omega

theorem generateItemGo_disjoint : ∀ (chain : List Bool) (d : Bool) (app : App)
    (coords : List (Int × Int)) (kinds : List Bool) (app' : App)
    (leftover : List (Int × Int)),
    generateItemGo chain d app coords kinds = some (app', leftover) →
    coords.length + app.items.length = leftover.length + app'.items.length →
    ∃ new, app'.items = app.items ++ new ∧
      ∀ it ∈ new,
        (∀ s ∈ app.segments, ¬(it.x = s.x ∧ it.y = s.y)) ∧
        (∀ old ∈ app.items, ¬(it.x = old.x ∧ it.y = old.y))
  | chain, d, app, coords, kinds, app', leftover => by
      intro h heq
      rw [generateItemGo.eq_def] at h
      cases coords with
      | nil => cases h
      | cons c0 cs =>
      simp only [] at h
      cases hseg : scanSegments app.segments c0.1 c0.2 cs with
      | none => rw [hseg] at h; cases h
      | some r1 =>
      obtain ⟨x1, y1, cs1⟩ := r1
      rw [hseg] at h
      simp only [] at h
      cases hitm : scanItems app.items x1 y1 cs1 with
      | none => rw [hitm] at h; cases h
      | some r2 =>
      obtain ⟨x, y, cs2⟩ := r2
      rw [hitm] at h
      simp only [] at h
      cases kinds with
      | nil => cases h
      | cons k ks =>
      cases chain with
      | nil => cases h
      | cons b bs =>
      have hle1 := scanSegments_length_le app.segments c0.1 c0.2 cs x1 y1 cs1 hseg
      have hle2 := scanItems_length_le app.items x1 y1 cs1 x y cs2 hitm
      simp only [List.length_cons] at heq
      simp only at h
      cases b with
      | false =>
          simp only [if_neg (by simp : ¬(false = true)), Option.some.injEq,
            Prod.mk.injEq] at h
          obtain ⟨rfl, rfl⟩ := h
          simp only [List.length_append, List.length_cons, List.length_nil] at heq
          have hcs1 : cs1.length = cs.length := by omega
          have hcs2 : cs2.length = cs1.length := by omega
          obtain ⟨hx1, hy1, hsegfree⟩ :=
            scanSegments_no_consume app.segments c0.1 c0.2 cs x1 y1 cs1 hseg hcs1
          obtain ⟨hx, hy, hitmfree⟩ :=
            scanItems_no_consume app.items x1 y1 cs1 x y cs2 hitm hcs2
          refine ⟨[⟨if k then (if d then (ItemType.Hedgehog, ItemType.Boulder)
              else (ItemType.Apple, ItemType.Mushroom)).2
            else (if d then (ItemType.Hedgehog, ItemType.Boulder)
              else (ItemType.Apple, ItemType.Mushroom)).1, x, y⟩], rfl, ?_⟩
          intro itm hitmmem
          rcases List.mem_singleton.mp hitmmem with rfl
          constructor
          · intro s hs
            intro hcol
            exact hsegfree s hs (by
              obtain ⟨hc1, hc2⟩ := hcol
              subst hx
              subst hy
              subst hx1
              subst hy1
              exact ⟨hc1.symm, hc2.symm⟩)
          · intro old hold
            intro hcol
            exact hitmfree old hold (by
              obtain ⟨hc1, hc2⟩ := hcol
              subst hx
              subst hy
              exact ⟨hc1.symm, hc2.symm⟩)
      | true =>
          rw [if_pos rfl] at h
          have hcons := generateItemGo_consumed bs true _ cs2 ks app' leftover h
          simp only [List.length_append, List.length_cons, List.length_nil] at hcons
          have hcs1 : cs1.length = cs.length := by omega
          have hcs2 : cs2.length = cs1.length := by omega
          have heq' : cs2.length +
              ({ app with items := app.items ++
                [⟨if k then (if d then (ItemType.Hedgehog, ItemType.Boulder)
                    else (ItemType.Apple, ItemType.Mushroom)).2
                  else (if d then (ItemType.Hedgehog, ItemType.Boulder)
                    else (ItemType.Apple, ItemType.Mushroom)).1, x, y⟩] } : App).items.length
              = leftover.length + app'.items.length := by
            simp only [List.length_append, List.length_cons, List.length_nil]
            omega
          obtain ⟨hx1, hy1, hsegfree⟩ :=
            scanSegments_no_consume app.segments c0.1 c0.2 cs x1 y1 cs1 hseg hcs1
          obtain ⟨hx, hy, hitmfree⟩ :=
            scanItems_no_consume app.items x1 y1 cs1 x y cs2 hitm hcs2
          obtain ⟨new', hitems', hfree'⟩ :=
            generateItemGo_disjoint bs true _ cs2 ks app' leftover h heq'
          simp only [List.append_assoc] at hitems'
          refine ⟨_ :: new', hitems', ?_⟩
          intro itm hitmmem
          rcases List.mem_cons.mp hitmmem with rfl | hmem'
          · constructor
            · intro s hs
              intro hcol
              exact hsegfree s hs (by
                obtain ⟨hc1, hc2⟩ := hcol
                subst hx
                subst hy
                subst hx1
                subst hy1
                exact ⟨hc1.symm, hc2.symm⟩)
            · intro old hold
              intro hcol
              exact hitmfree old hold (by
                obtain ⟨hc1, hc2⟩ := hcol
                subst hx
                subst hy
                exact ⟨hc1.symm, hc2.symm⟩)
          · obtain ⟨hseg', hitm'⟩ := hfree' itm hmem'
            refine ⟨hseg', ?_⟩
            intro old hold
            exact hitm' old (List.mem_append_left _ hold)

/-- C9 counterexample: the occupancy scan's `continue` only advances the
`for` loop, so a resampled coordinate is never rechecked against the
segments already scanned.  With one segment at (2, 1) and the in-range
random draws (2, 1), (2, 1) (for a 10 × 10 canvas the draws range over
[2, 9) × [1, 9)), the first draw collides with the segment, the resample
returns (2, 1) again, the scan ends, and `generate_item` places an item at
(2, 1) — the very cell of the segment — refuting the claim that every
newly placed item's cell differs from every segment's cell. -/
theorem c9_counterexample :
    App.generate_item
      { segments := [⟨2, 1, Direction.Right⟩], items := [], playing := true,
        canvas_x_length := 10, canvas_y_length := 10 }
      [(2, 1), (2, 1)] [false] [false] =
      some ({ segments := [⟨2, 1, Direction.Right⟩],
              items := [⟨ItemType.Apple, 2, 1⟩], playing := true,
              canvas_x_length := 10, canvas_y_length := 10 }, []) ∧
    (⟨ItemType.Apple, 2, 1⟩ : Item).x = (⟨2, 1, Direction.Right⟩ : Segment).x ∧
    (⟨ItemType.Apple, 2, 1⟩ : Item).y = (⟨2, 1, Direction.Right⟩ : Segment).y := by
  decide

/-- C9 amended: whenever a completed `generate_item` call consumed exactly
one coordinate draw per item placed (that is, no occupancy collision ever
forced a resample — the length bookkeeping
`coords + old items = leftover + new items` says exactly that), every
newly placed item's cell differs from every segment's cell and from every
pre-existing item's cell. -/
theorem c9_no_resample_disjoint (app : App) (coords : List (Int × Int))
    (kinds chain : List Bool) (app' : App) (leftover : List (Int × Int))
    (h : app.generate_item coords kinds chain = some (app', leftover))
    (hnores : coords.length + app.items.length =
      leftover.length + app'.items.length) :
    ∃ new, app'.items = app.items ++ new ∧
      ∀ it ∈ new,
        (∀ s ∈ app.segments, ¬(it.x = s.x ∧ it.y = s.y)) ∧
        (∀ old ∈ app.items, ¬(it.x = old.x ∧ it.y = old.y)) :=
  generateItemGo_disjoint chain false app coords kinds app' leftover h hnores

/-- Witness for the amended C9: a collision-free spawn next to a segment
at (5, 5). -/
theorem c9_witness :
    ∃ new,
      ([⟨ItemType.Apple, 2, 1⟩] : List Item) = [] ++ new ∧
      ∀ it ∈ new,
        (∀ s ∈ ([⟨5, 5, Direction.Right⟩] : List Segment),
          ¬(it.x = s.x ∧ it.y = s.y)) ∧
        (∀ old ∈ ([] : List Item), ¬(it.x = old.x ∧ it.y = old.y)) :=
  c9_no_resample_disjoint
    { segments := [⟨5, 5, Direction.Right⟩], items := [], playing := true,
      canvas_x_length := 10, canvas_y_length := 10 }
    [(2, 1)] [false] [false]
    { segments := [⟨5, 5, Direction.Right⟩],
      items := [⟨ItemType.Apple, 2, 1⟩], playing := true,
      canvas_x_length := 10, canvas_y_length := 10 }
    [] (by decide) (by decide)

end RustySnake
